import Mathlib

/-!
# Verification of the cortex memory engine

A shallow embedding of the cortex memory substrate (Go + PostgreSQL):
the store primitives (`AddMemory`, `UpdateMemory`, `DeleteMemory`,
`VectorSearch`), the hybrid searcher (`hybridSearch`, `normalizeScores`),
the TTL sweeper (`DeleteExpired`), the entity graph query
(`GetRelatedMemories`), the JSONL import path (`importRecord`, `Import`)
and the MCP tool handlers.

Modelling conventions:
* `float32` scores, vectors and importances are modelled as exact
  rationals (`ℚ`); the verified properties are order and range
  properties that do not depend on rounding.
* timestamps are integers (an abstract epoch unit); one day is the
  constant `dayUnit`.
* SQL tables are lists of rows, and each query is translated
  operationally (join = cross product + filter, `ORDER BY` = insertion
  sort on the ordering key, `DISTINCT ON` = keep the first row per key,
  `LIMIT` = take).
* the pgvector cosine-distance operator `<=>` is kept opaque: the
  definitions take the distance function as a parameter.  Concrete
  counterexamples instantiate it with `cosDistUnit`, which is exactly
  the cosine distance on unit-length vectors.
-/

namespace Cortex

/-- A row of the `memories` table (migrations 001 and 002). -/
structure MemRow where
  id : Int
  tenant_id : String
  workspace_id : String
  kind : String
  text : String
  source : Option String := none
  created_at : Int := 0
  updated_at : Int := 0
  tags : List String := []
  importance : ℚ := 1/2
  ttl_days : Option Int := none
  meta : List (String × String) := []
deriving Repr, DecidableEq

/-- A row of the `memory_embeddings` table (after migration 003 the
primary key is `(memory_id, model)`). -/
structure EmbRow where
  memory_id : Int
  model : String
  dims : Int
  embedding : List ℚ
deriving Repr, DecidableEq

/-- A row of the `memory_entities` join table (migration 004);
the primary key is `(memory_id, entity_id)`. -/
structure MELink where
  memory_id : Int
  entity_id : Int
deriving Repr, DecidableEq

/-- The database state: the tables the verified claims touch, plus the
`BIGSERIAL` counter that assigns memory ids. -/
structure DBState where
  memories : List MemRow := []
  embeddings : List EmbRow := []
  memory_entities : List MELink := []
  nextId : Int := 1
deriving Repr, DecidableEq

/-- The partition every `db.DB` handle is bound to
(`db.tenantID`, `db.workspaceID`). -/
structure DBConfig where
  tenantID : String
  workspaceID : String
deriving Repr, DecidableEq

/-- Whether a memory row belongs to the handle's partition; every store
query carries this `WHERE tenant_id = $.. AND workspace_id = $..` filter. -/
def inPartition (cfg : DBConfig) (m : MemRow) : Bool :=
  m.tenant_id = cfg.tenantID && m.workspace_id = cfg.workspaceID

/-! ## Generic list-processing kit

`insertLe`/`sortLe` model a comparison sort (SQL `ORDER BY`, and Go's
`sort.Slice` on short slices, which is an insertion sort);
`distinctOn` models SQL `DISTINCT ON` (keep the first row per key in
list order); `goTake` models `LIMIT`. -/

/-- Insert `x` before the first element `y` with `le x y`. -/
def insertLe (le : α → α → Bool) (x : α) : List α → List α
  | [] => [x]
  | y :: l => if le x y then x :: y :: l else y :: insertLe le x l

/-- Insertion sort with comparison `le`. -/
def sortLe (le : α → α → Bool) : List α → List α
  | [] => []
  | x :: xs => insertLe le x (sortLe le xs)

/-- SQL `DISTINCT ON (key ...)`: keep the first row of each key. -/
def distinctOn (key : α → Int) : List α → List α
  | [] => []
  | x :: xs => x :: distinctOn key (xs.filter (fun y => key y ≠ key x))
termination_by l => l.length
decreasing_by
  simpa using Nat.lt_succ_of_le (List.length_filter_le _ _)

/-- SQL `LIMIT n` for a Go `int` limit. -/
def goTake (n : Int) (l : List α) : List α := l.take n.toNat

theorem mem_insertLe (le : α → α → Bool) (x : α) (l : List α) (z : α) :
    z ∈ insertLe le x l ↔ z = x ∨ z ∈ l := by
  induction l with
  | nil => simp [insertLe]
  | cons y ys ih =>
    by_cases h : le x y = true
    · simp [insertLe, h]
    · simp only [insertLe, if_neg h, List.mem_cons, ih]
      tauto

theorem perm_insertLe (le : α → α → Bool) (x : α) (l : List α) :
    List.Perm (insertLe le x l) (x :: l) := by
  induction l with
  | nil => simp [insertLe]
  | cons y ys ih =>
    by_cases h : le x y = true
    · simp [insertLe, h]
    · simp only [insertLe, if_neg h]
      exact (ih.cons y).trans (List.Perm.swap x y ys)

theorem perm_sortLe (le : α → α → Bool) (l : List α) :
    List.Perm (sortLe le l) l := by
  induction l with
  | nil => simp [sortLe]
  | cons x xs ih =>
    exact (perm_insertLe le x (sortLe le xs)).trans (ih.cons x)

theorem pairwise_insertLe (le : α → α → Bool) (R : α → α → Prop)
    (hle : ∀ a b, le a b = true → R a b)
    (hnle : ∀ a b, le a b = false → R b a)
    (htrans : Transitive R)
    (x : α) (l : List α) (hl : l.Pairwise R) :
    (insertLe le x l).Pairwise R := by
  induction l with
  | nil => simp [insertLe]
  | cons y ys ih =>
    rcases List.pairwise_cons.mp hl with ⟨hy, hys⟩
    by_cases h : le x y = true
    · rw [insertLe, if_pos h]
      refine List.pairwise_cons.mpr ⟨?_, hl⟩
      intro z hz
      rcases List.mem_cons.mp hz with rfl | hz
      · exact hle _ _ h
      · exact htrans (hle _ _ h) (hy z hz)
    · rw [insertLe, if_neg h]
      refine List.pairwise_cons.mpr ⟨?_, ih hys⟩
      intro z hz
      rcases (mem_insertLe le x ys z).mp hz with rfl | hz
      · exact hnle _ _ (Bool.not_eq_true _ ▸ h)
      · exact hy z hz

theorem pairwise_sortLe (le : α → α → Bool) (R : α → α → Prop)
    (hle : ∀ a b, le a b = true → R a b)
    (hnle : ∀ a b, le a b = false → R b a)
    (htrans : Transitive R)
    (l : List α) : (sortLe le l).Pairwise R := by
  induction l with
  | nil => simp [sortLe]
  | cons x xs ih => exact pairwise_insertLe le R hle hnle htrans x _ ih

theorem distinctOn_sublist (key : α → Int) (l : List α) :
    (distinctOn key l).Sublist l := by
  induction l using distinctOn.induct key with
  | case1 => rw [distinctOn]
  | case2 x xs ih =>
    rw [distinctOn]
    exact (ih.trans (List.filter_sublist xs)).cons₂ x

theorem distinctOn_pairwise {R : α → α → Prop} (key : α → Int)
    (l : List α) (h : l.Pairwise R) : (distinctOn key l).Pairwise R :=
  h.sublist (distinctOn_sublist key l)

theorem distinctOn_keys (key : α → Int) (l : List α) :
    (distinctOn key l).Pairwise (fun a b => key a ≠ key b) := by
  induction l using distinctOn.induct key with
  | case1 => rw [distinctOn]; exact List.Pairwise.nil
  | case2 x xs ih =>
    rw [distinctOn]
    refine List.pairwise_cons.mpr ⟨?_, ih⟩
    intro z hz
    have hz' := (distinctOn_sublist key _).subset hz
    have hd := List.of_mem_filter hz'
    exact (of_decide_eq_true hd).symm

/-- In a list sorted by `key` then `val`, the surviving row of
`distinctOn key` carries the minimum `val` of its key group. -/
theorem distinctOn_min (key : α → Int) (val : α → ℚ) (l : List α)
    (hs : l.Pairwise (fun a b =>
      key a < key b ∨ (key a = key b ∧ val a ≤ val b))) :
    ∀ r ∈ distinctOn key l, ∀ x ∈ l, key x = key r → val r ≤ val x := by
  induction l using distinctOn.induct key with
  | case1 => rw [distinctOn]; simp
  | case2 a t ih =>
    rw [distinctOn]
    rcases List.pairwise_cons.mp hs with ⟨ha, ht⟩
    intro r hr x hx hkey
    rcases List.mem_cons.mp hr with rfl | hr
    · rcases List.mem_cons.mp hx with rfl | hx
      · exact le_refl _
      · rcases ha x hx with hlt | ⟨_, hle⟩
        · omega
        · exact hle
    · have hrk : key r ≠ key a := by
        have hmem := (distinctOn_sublist key _).subset hr
        have hd := List.of_mem_filter hmem
        exact of_decide_eq_true hd
      rcases List.mem_cons.mp hx with rfl | hx
      · exact absurd hkey.symm hrk
      · have hxf : x ∈ t.filter (fun y => key y ≠ key a) := by
          refine List.mem_filter.mpr ⟨hx, ?_⟩
          exact decide_eq_true (by rw [hkey]; exact hrk)
        exact ih (ht.sublist (List.filter_sublist t)) r hr x hxf hkey

/-! ## Store primitives (package `db`) -/

/-- The error kinds the store surfaces. -/
inductive StoreErr where
  | notFound
deriving Repr, DecidableEq

/-- `db.AddMemoryParams`. A `none` for `tags`/`meta` models a Go nil
slice/map. -/
structure AddMemoryParams where
  kind : String
  text : String
  source : Option String := none
  tags : Option (List String) := none
  importance : ℚ := 1/2
  ttl_days : Option Int := none
  meta : Option (List (String × String)) := none
deriving Repr, DecidableEq

/-- `db.AddMemory`: defaults nil tags/meta to empty, inserts a row owned
by the handle's partition, and returns the assigned `BIGSERIAL` id.
`created_at` and `updated_at` take the schema default `now()`. -/
def AddMemory (cfg : DBConfig) (now : Int) (p : AddMemoryParams)
    (st : DBState) : Int × DBState :=
  let row : MemRow :=
    { id := st.nextId
      tenant_id := cfg.tenantID
      workspace_id := cfg.workspaceID
      kind := p.kind
      text := p.text
      source := p.source
      created_at := now
      updated_at := now
      tags := p.tags.getD []
      importance := p.importance
      ttl_days := p.ttl_days
      meta := p.meta.getD [] }
  (st.nextId, { st with memories := st.memories ++ [row],
                        nextId := st.nextId + 1 })

/-- `db.AddEmbedding`: `INSERT ... ON CONFLICT (memory_id, model) DO
UPDATE`, with `dims` stored as the vector's length. -/
def AddEmbedding (st : DBState) (memoryID : Int) (model : String)
    (embedding : List ℚ) : DBState :=
  if st.embeddings.any (fun e => e.memory_id == memoryID && e.model == model) then
    { st with embeddings := st.embeddings.map (fun e =>
        if e.memory_id == memoryID && e.model == model then
          { e with dims := embedding.length, embedding := embedding }
        else e) }
  else
    { st with embeddings :=
        st.embeddings ++ [⟨memoryID, model, embedding.length, embedding⟩] }

/-- `db.UpdateMemoryParams`: a partial patch; `none` fields are absent. -/
structure UpdateMemoryParams where
  kind : Option String := none
  text : Option String := none
  source : Option String := none
  tags : Option (List String) := none
  importance : Option ℚ := none
  ttl_days : Option Int := none
  meta : Option (List (String × String)) := none
deriving Repr, DecidableEq

/-- The row produced by `UpdateMemory`'s dynamic `SET` clause:
`updated_at = now()` always, plus one assignment per present field. -/
def applySet (now : Int) (p : UpdateMemoryParams) (m : MemRow) : MemRow :=
  { m with
    updated_at := now
    kind := p.kind.getD m.kind
    text := p.text.getD m.text
    source := match p.source with | some s => some s | none => m.source
    tags := p.tags.getD m.tags
    importance := p.importance.getD m.importance
    ttl_days := match p.ttl_days with | some d => some d | none => m.ttl_days
    meta := p.meta.getD m.meta }

/-- `db.UpdateMemory`: `UPDATE memories SET ... WHERE id = $1 AND
tenant_id = $2 AND workspace_id = $3`; `RowsAffected() == 0` surfaces
as "memory not found". -/
def UpdateMemory (cfg : DBConfig) (now : Int) (id : Int)
    (p : UpdateMemoryParams) (st : DBState) : Except StoreErr DBState :=
  if st.memories.any (fun m => m.id == id && inPartition cfg m) then
    .ok { st with memories := st.memories.map (fun m =>
      if m.id == id && inPartition cfg m then applySet now p m else m) }
  else
    .error .notFound

/-- `db.DeleteMemory`: partition-scoped delete; the schema cascades to
`memory_embeddings` and `memory_entities` rows of the deleted memory. -/
def DeleteMemory (cfg : DBConfig) (id : Int) (st : DBState) :
    Except StoreErr DBState :=
  if st.memories.any (fun m => m.id == id && inPartition cfg m) then
    let delIds := (st.memories.filter (fun m => m.id == id && inPartition cfg m)).map (·.id)
    .ok { st with
      memories := st.memories.filter (fun m => !(m.id == id && inPartition cfg m))
      embeddings := st.embeddings.filter (fun e => !(delIds.contains e.memory_id))
      memory_entities := st.memory_entities.filter (fun l => !(delIds.contains l.memory_id)) }
  else
    .error .notFound

/-! ## Sweeper (internal/sweeper/sweeper.go) -/

/-- One day, in the abstract timestamp unit (`INTERVAL '1 day'`). -/
def dayUnit : Int := 86400

/-- The sweeper's expiry predicate:
`ttl_days IS NOT NULL AND created_at + ttl_days * INTERVAL '1 day' < NOW()`. -/
def isExpiredRow (now : Int) (m : MemRow) : Bool :=
  match m.ttl_days with
  | none => false
  | some d => m.created_at + d * dayUnit < now

/-- `sweeper.DeleteExpired`: one partition-scoped `DELETE` returning the
affected row count; the schema cascades embeddings and entity links. -/
def DeleteExpired (cfg : DBConfig) (now : Int) (st : DBState) :
    DBState × Nat :=
  let del := st.memories.filter (fun m => inPartition cfg m && isExpiredRow now m)
  let delIds := del.map (·.id)
  ({ st with
      memories := st.memories.filter (fun m => !(inPartition cfg m && isExpiredRow now m))
      embeddings := st.embeddings.filter (fun e => !(delIds.contains e.memory_id))
      memory_entities := st.memory_entities.filter (fun l => !(delIds.contains l.memory_id)) },
   del.length)

theorem isExpiredRow_iff (now : Int) (m : MemRow) :
    isExpiredRow now m = true ↔
      ∃ d, m.ttl_days = some d ∧ m.created_at + d * dayUnit < now := by
  cases h : m.ttl_days <;> simp [isExpiredRow, h]

/-- C7: `UpdateMemory` with an empty patch leaves every content field
(kind, text, source, tags, importance, ttl_days, meta) of the matching
row unchanged while setting `updated_at` to `now`, touches no other
table, and fails with `NotFound` exactly when no row matches the id in
the current (tenant, workspace) partition. -/
theorem UpdateMemory_empty_patch (cfg : DBConfig) (now : Int) (id : Int)
    (st : DBState) :
    UpdateMemory cfg now id {} st =
      (if st.memories.any (fun m => m.id == id && inPartition cfg m) then
        .ok { st with memories := st.memories.map (fun m =>
          if m.id == id && inPartition cfg m then { m with updated_at := now }
          else m) }
      else .error .notFound) := by
  have h : ∀ m : MemRow, applySet now {} m = { m with updated_at := now } :=
    fun m => rfl
  simp only [UpdateMemory, h]

/-- C8: one sweeper pass deletes exactly the memories of the current
(tenant, workspace) whose `ttl_days` is non-null and whose
`created_at + ttl_days` days lies before `now` (membership
characterization plus row accounting), and an immediately repeated pass
on the resulting state deletes zero rows and leaves the state unchanged. -/
theorem DeleteExpired_idempotent (cfg : DBConfig) (now : Int) (st : DBState) :
    (∀ m, m ∈ (DeleteExpired cfg now st).1.memories ↔
       m ∈ st.memories ∧ ¬(inPartition cfg m = true ∧
         ∃ d, m.ttl_days = some d ∧ m.created_at + d * dayUnit < now)) ∧
    (DeleteExpired cfg now st).2 + (DeleteExpired cfg now st).1.memories.length
      = st.memories.length ∧
    DeleteExpired cfg now (DeleteExpired cfg now st).1 =
      ((DeleteExpired cfg now st).1, 0) := by
  have hb : ∀ m : MemRow, ((!(inPartition cfg m && isExpiredRow now m)) = true) ↔
      ¬(inPartition cfg m = true ∧ isExpiredRow now m = true) := by
    intro m
    cases inPartition cfg m <;> cases isExpiredRow now m <;> simp
  refine ⟨?_, ?_, ?_⟩
  · intro m
    have hmem : (DeleteExpired cfg now st).1.memories =
        st.memories.filter (fun m => !(inPartition cfg m && isExpiredRow now m)) := rfl
    rw [hmem, List.mem_filter, hb m, isExpiredRow_iff]
  · have hperm := List.filter_append_perm
      (fun m => inPartition cfg m && isExpiredRow now m) st.memories
    have hlen := hperm.length_eq
    rw [List.length_append] at hlen
    simpa [DeleteExpired] using hlen
  · have hnil : (st.memories.filter
        (fun m => !(inPartition cfg m && isExpiredRow now m))).filter
        (fun m => inPartition cfg m && isExpiredRow now m) = [] := by
      rw [List.filter_filter]
      apply List.filter_eq_nil_iff.mpr
      intro a _
      cases inPartition cfg a <;> cases isExpiredRow now a <;> simp
    have hkeep : (st.memories.filter
        (fun m => !(inPartition cfg m && isExpiredRow now m))).filter
        (fun m => !(inPartition cfg m && isExpiredRow now m)) =
        st.memories.filter (fun m => !(inPartition cfg m && isExpiredRow now m)) := by
      rw [List.filter_filter]
      apply List.filter_congr
      intro a _
      cases inPartition cfg a <;> cases isExpiredRow now a <;> simp
    simp only [DeleteExpired, hnil, hkeep, List.map_nil, List.length_nil]
    simp

/-! ## MCP add handler (cmd/mcpserver/main.go, createAddHandler) -/

/-- Error kinds surfaced by the tool handlers. -/
inductive HandlerErr where
  | textRequired
  | queryRequired
  | idRequired
  | dataRequired
  | storeErr (e : StoreErr)
deriving Repr, DecidableEq

/-- Log severities that matter to the claims. -/
inductive LogLevel where
  | warning
deriving Repr, DecidableEq

/-- `mcp.MemoryAddArgs`; a missing `kind` is Go's zero string. -/
structure MemoryAddArgs where
  text : String
  kind : String := ""
  importance : Option ℚ := none
  tags : Option (List String) := none
  ttl_days : Option Int := none
  source : Option String := none
deriving Repr, DecidableEq

/-- The handler's external effects: the multi-model embedder (when
configured, `EmbedAll` either fails as a whole or yields one vector per
model), the single provider's `Embed` outcome, the provider's embedding
model name, and the outcome of each `AddEmbedding` write. -/
structure AddEnv where
  multi : Option (Except Unit (List (String × List ℚ)))
  single : Except Unit (List ℚ)
  embedModel : String
  store : String → List ℚ → Except Unit Unit

/-- The `db.AddMemoryParams` the add handler builds after validation:
`kind` defaulted to `"note"`, `importance` to `0.5`, `Meta: nil`. -/
def addParamsOf (args : MemoryAddArgs) : AddMemoryParams :=
  { kind := if args.kind = "" then "note" else args.kind
    text := args.text
    source := args.source
    tags := args.tags
    importance := args.importance.getD (1/2)
    ttl_days := args.ttl_days
    meta := none }

/-- Folding step of the multi-model branch: upsert one model's vector,
downgrading a store failure to a warning log. -/
def storeEmbeddingStep (env : AddEnv) (id : Int)
    (acc : DBState × List LogLevel) (p : String × List ℚ) :
    DBState × List LogLevel :=
  match env.store p.1 p.2 with
  | .error _ => (acc.1, acc.2 ++ [.warning])
  | .ok _ => (AddEmbedding acc.1 id p.1 p.2, acc.2)

/-- `createAddHandler`: validate `text`, default `kind`/`importance`,
insert the memory row, then attempt embedding generation and storage;
every embedding-side failure is logged at warning and the call still
returns the new id. -/
def createAddHandler (cfg : DBConfig) (env : AddEnv) (now : Int)
    (args : MemoryAddArgs) (st : DBState) :
    Except HandlerErr (Int × DBState × List LogLevel) :=
  if args.text = "" then .error .textRequired
  else
    let r := AddMemory cfg now (addParamsOf args) st
    let id := r.1
    let st1 := r.2
    match env.multi with
    | some (.error _) => .ok (id, st1, [.warning])
    | some (.ok vecs) =>
        let f := vecs.foldl (storeEmbeddingStep env id) (st1, [])
        .ok (id, f.1, f.2)
    | none =>
        match env.single with
        | .error _ => .ok (id, st1, [.warning])
        | .ok vec =>
            match env.store env.embedModel vec with
            | .error _ => .ok (id, st1, [.warning])
            | .ok _ => .ok (id, AddEmbedding st1 id env.embedModel vec, [])

theorem storeEmbeddingStep_memories (env : AddEnv) (id : Int)
    (l : List (String × List ℚ)) (acc : DBState × List LogLevel) :
    (l.foldl (storeEmbeddingStep env id) acc).1.memories = acc.1.memories := by
  induction l generalizing acc with
  | nil => rfl
  | cons p ps ih =>
    rw [List.foldl_cons, ih]
    cases h : env.store p.1 p.2 <;> simp [storeEmbeddingStep, h, AddEmbedding]
    split <;> rfl

/-- The memory row the add handler inserts. -/
def insertedRow (cfg : DBConfig) (now : Int) (args : MemoryAddArgs)
    (st : DBState) : MemRow :=
  { id := st.nextId
    tenant_id := cfg.tenantID
    workspace_id := cfg.workspaceID
    kind := if args.kind = "" then "note" else args.kind
    text := args.text
    source := args.source
    created_at := now
    updated_at := now
    tags := args.tags.getD []
    importance := args.importance.getD (1/2)
    ttl_days := args.ttl_days
    meta := [] }

/-- C5: a `memory.add` call with non-empty text always succeeds with the
freshly assigned id; the memory row is in the store no matter how the
embedding generation or storage turns out (it was inserted before any
embedding was attempted), and when the embedding call or the embedding
write fails the failure is only logged at warning — no embedding row is
written and no error is surfaced. -/
theorem createAddHandler_embed_nonfatal (cfg : DBConfig) (env : AddEnv)
    (now : Int) (args : MemoryAddArgs) (st : DBState)
    (h : args.text ≠ "") :
    ∃ (st2 : DBState) (logs : List LogLevel),
      createAddHandler cfg env now args st = .ok (st.nextId, st2, logs) ∧
      st2.memories = st.memories ++ [insertedRow cfg now args st] ∧
      ((env.multi = some (.error ()) ∨
        (env.multi = none ∧ env.single = .error ()) ∨
        (env.multi = none ∧ ∃ v, env.single = .ok v ∧
          env.store env.embedModel v = .error ())) →
        logs = [.warning] ∧ st2.embeddings = st.embeddings) := by
  have hrow : (AddMemory cfg now (addParamsOf args) st).2.memories =
      st.memories ++ [insertedRow cfg now args st] := by
    simp [AddMemory, addParamsOf, insertedRow]
  match hm : env.multi with
  | some (.error e) =>
    refine ⟨(AddMemory cfg now (addParamsOf args) st).2, [.warning], ?_, hrow, ?_⟩
    · simp [createAddHandler, if_neg h, hm, AddMemory]
    · intro _; exact ⟨rfl, rfl⟩
  | some (.ok vecs) =>
    refine ⟨(vecs.foldl (storeEmbeddingStep env st.nextId)
      ((AddMemory cfg now (addParamsOf args) st).2, [])).1,
      (vecs.foldl (storeEmbeddingStep env st.nextId)
      ((AddMemory cfg now (addParamsOf args) st).2, [])).2, ?_, ?_, ?_⟩
    · simp [createAddHandler, if_neg h, hm, AddMemory]
    · rw [storeEmbeddingStep_memories]
      exact hrow
    · rintro (hc | ⟨hc, _⟩ | ⟨hc, _⟩) <;> simp at hc
  | none =>
    match hs : env.single with
    | .error e =>
      refine ⟨(AddMemory cfg now (addParamsOf args) st).2, [.warning], ?_, hrow, ?_⟩
      · simp [createAddHandler, if_neg h, hm, hs, AddMemory]
      · intro _; exact ⟨rfl, rfl⟩
    | .ok vec =>
      match hw : env.store env.embedModel vec with
      | .error e =>
        refine ⟨(AddMemory cfg now (addParamsOf args) st).2, [.warning], ?_, hrow, ?_⟩
        · simp [createAddHandler, if_neg h, hm, hs, hw, AddMemory]
        · intro _; exact ⟨rfl, rfl⟩
      | .ok u =>
        refine ⟨AddEmbedding (AddMemory cfg now (addParamsOf args) st).2
          st.nextId env.embedModel vec, [], ?_, ?_, ?_⟩
        · simp [createAddHandler, if_neg h, hm, hs, hw, AddMemory]
        · rw [show ∀ s i mo v, (AddEmbedding s i mo v).memories = s.memories by
            intro s i mo v
            simp [AddEmbedding]
            split <;> rfl]
          exact hrow
        · rintro (hc | ⟨_, hc⟩ | ⟨_, v, hv, hc⟩)
          · simp at hc
          · simp at hc
          · injection hv with hv2
            subst hv2
            rw [hw] at hc
            simp at hc

/-- Witness for C5 at a concrete input: single-model configuration whose
provider fails; the add still returns id 1 and the memory is stored with
no embedding, after one warning log. -/
theorem createAddHandler_embed_nonfatal_witness :
    ∃ (st2 : DBState) (logs : List LogLevel),
      createAddHandler ⟨"local", "default"⟩
        ⟨none, .error (), "text-embedding-3-small", fun _ _ => .ok ()⟩
        0 { text := "User prefers dark mode" } { nextId := 1 } =
          .ok (1, st2, logs) ∧
      st2.memories = ({ nextId := 1 } : DBState).memories ++
        [insertedRow ⟨"local", "default"⟩ 0 { text := "User prefers dark mode" }
          { nextId := 1 }] ∧
      (((some (.error ()) : Option (Except Unit (List (String × List ℚ)))) =
          some (.error ()) ∨
        ((none : Option (Except Unit (List (String × List ℚ)))) = none ∧
          (Except.error () : Except Unit (List ℚ)) = .error ()) ∨
        ((none : Option (Except Unit (List (String × List ℚ)))) = none ∧
          ∃ v, (Except.error () : Except Unit (List ℚ)) = .ok v ∧
            (Except.ok () : Except Unit Unit) = .error ())) →
        logs = [.warning] ∧ st2.embeddings = ({ nextId := 1 } : DBState).embeddings) := by
  have := createAddHandler_embed_nonfatal ⟨"local", "default"⟩
    ⟨none, .error (), "text-embedding-3-small", fun _ _ => .ok ()⟩
    0 { text := "User prefers dark mode" } { nextId := 1 } (by decide)
  simpa using this

/-! ## memory.search argument handling (C4) -/

/-- `mcp.MemorySearchArgs` (internal/mcp/tools.go). -/
structure MemorySearchArgs where
  query : String
  k : Option Int := none
  hybrid : Option Bool := none
  model : Option String := none
deriving Repr, DecidableEq

/-- `search.SearchParams` (internal/search/hybrid.go). -/
structure SearchParams where
  query : String
  limit : Int
  hybrid : Bool
  alpha : ℚ := 0
  model : String := ""
deriving Repr, DecidableEq

/-- `mcp.MemoryHandlers.HandleSearch` argument processing
(internal/mcp/handlers.go): default `k = 10`, `hybrid = true`, then
clamp `k` to `[1, 100]`; returns the effective `(k, hybrid)`. -/
def HandleSearchArgs (args : MemorySearchArgs) :
    Except HandlerErr (Int × Bool) :=
  if args.query = "" then .error .queryRequired
  else
    let k0 := args.k.getD 10
    let k1 := if k0 < 1 then 1 else k0
    let k2 := if k1 > 100 then 100 else k1
    .ok (k2, args.hybrid.getD true)

/-- `createSearchHandler` argument processing (cmd/mcpserver/main.go):
the handler actually registered for `memory.search`; applies the
defaults (`k = 10`, `hybrid = true`, empty model) but performs no
clamping before calling `searcher.Search`. -/
def createSearchHandlerParams (args : MemorySearchArgs) :
    Except HandlerErr SearchParams :=
  if args.query = "" then .error .queryRequired
  else
    .ok { query := args.query
          limit := args.k.getD 10
          hybrid := args.hybrid.getD true
          alpha := 0
          model := args.model.getD "" }

/-- `search.Search`'s limit adjustment: a non-positive limit becomes 10. -/
def searchEffectiveLimit (limit : Int) : Int :=
  if limit ≤ 0 then 10 else limit

/-- C4 (divergence evaluation): the live `memory.search` path —
`createSearchHandler` composed with `Search`'s limit adjustment — passes
`k = 150` through unclamped (and turns `k = -5` into 10, not 1), while
`mcp.HandleSearch` implements the documented clamp to `[1, 100]`; the
defaults `k = 10` and `hybrid = true` hold on both paths. -/
theorem memory_search_k_not_clamped :
    createSearchHandlerParams { query := "x", k := some 150 } =
      .ok { query := "x", limit := 150, hybrid := true, alpha := 0, model := "" } ∧
    searchEffectiveLimit 150 = 150 ∧ ¬((150 : Int) ≤ 100) ∧
    createSearchHandlerParams { query := "x", k := some (-5) } =
      .ok { query := "x", limit := -5, hybrid := true, alpha := 0, model := "" } ∧
    searchEffectiveLimit (-5) = 10 ∧
    HandleSearchArgs { query := "x", k := some 150 } = .ok (100, true) ∧
    HandleSearchArgs { query := "x", k := some (-5) } = .ok (1, true) ∧
    createSearchHandlerParams { query := "x" } =
      .ok { query := "x", limit := 10, hybrid := true, alpha := 0, model := "" } :=
  ⟨rfl, rfl, by decide, rfl, rfl, rfl, rfl, rfl⟩

/-! ## Hybrid searcher (internal/search/hybrid.go) -/

/-- `db.MemoryWithScore`: a memory row plus a similarity score. -/
structure MWS where
  mem : MemRow
  score : ℚ
deriving Repr, DecidableEq

/-- `search.SearchResult`. -/
structure SearchResult where
  id : Int
  text : String
  kind : String
  source : Option String
  tags : List String
  importance : ℚ
  score : ℚ
deriving Repr, DecidableEq

/-- `memoriesToResults`. -/
def memoriesToResults (memories : List MWS) : List SearchResult :=
  memories.map (fun m =>
    { id := m.mem.id, text := m.mem.text, kind := m.mem.kind
      source := m.mem.source, tags := m.mem.tags
      importance := m.mem.importance, score := m.score })

/-- `truncateResults`: at most `limit` results (Go int comparison). -/
def truncateResults (results : List SearchResult) (limit : Int) :
    List SearchResult :=
  if (results.length : Int) ≤ limit then results else results.take limit.toNat

/-- `normalizeScores`: divide every score by the set's max unless the
max is ≤ 0, in which case the scores are left as-is. -/
def normalizeScores (results : List MWS) : List MWS :=
  match results with
  | [] => []
  | x :: xs =>
    let maxS := xs.foldl (fun a r => if r.score > a then r.score else a) x.score
    if maxS ≤ 0 then x :: xs
    else (x :: xs).map (fun r => { r with score := r.score / maxS })

/-- First row of the list carrying the given memory id. -/
def findRow (id : Int) : List MWS → Option MWS
  | [] => none
  | r :: l => if r.mem.id = id then some r else findRow id l

/-- A Go `map[int64]float32` built by iterating a result list and
assigning `m[r.ID] = r.Score` (last write wins, hence the reversal);
lookup of a missing key yields 0. -/
def lookupScore (l : List MWS) (id : Int) : ℚ :=
  match findRow id l.reverse with
  | some r => r.score
  | none => 0

/-- The entry of the `merged` map for a key: vector results are inserted
first (last same-id write wins), then lexical results only if the key is
absent (first same-id write wins); missing sides contribute score 0. -/
def mergedVal (vecN lexN : List MWS) (alpha : ℚ) (id : Int) : Option MWS :=
  match findRow id vecN.reverse with
  | some r => some ⟨r.mem, alpha * r.score + (1 - alpha) * lookupScore lexN id⟩
  | none =>
    match findRow id lexN with
    | some r => some ⟨r.mem, alpha * lookupScore vecN id + (1 - alpha) * r.score⟩
    | none => none

/-- Go's `sort.Slice` on a short slice (insertion sort, stable in
effect: an element moves left only past elements it is strictly
`less` than). -/
def goSortSlice (less : α → α → Bool) (l : List α) : List α :=
  l.foldl (fun acc x => insertLe less x acc) []

/-- `hybridSearch`: both `order` and the sort model the parts Go leaves
unspecified — `order` is the iteration order of the `merged` map (Go
randomizes it; any enumeration of the keys is an admissible execution),
and `goSortSlice` with the source's `less` is the sort `sort.Slice`
performs on slices of fewer than 13 elements. -/
def hybridSearch (vectorResults lexicalResults : List MWS) (limit : Int)
    (alpha : ℚ) (order : List Int) : List SearchResult :=
  if vectorResults.isEmpty && lexicalResults.isEmpty then []
  else if vectorResults.isEmpty then
    truncateResults (memoriesToResults lexicalResults) limit
  else if lexicalResults.isEmpty then
    truncateResults (memoriesToResults vectorResults) limit
  else
    let vecN := normalizeScores vectorResults
    let lexN := normalizeScores lexicalResults
    let results := (order.filterMap (mergedVal vecN lexN alpha)).map
      (fun fr =>
        { id := fr.mem.id, text := fr.mem.text, kind := fr.mem.kind
          source := fr.mem.source, tags := fr.mem.tags
          importance := fr.mem.importance, score := fr.score })
    truncateResults
      (goSortSlice (fun a b => decide (b.score < a.score)) results) limit

/-- Shared example memory row. -/
def exM (i : Int) (t : String) : MemRow :=
  { id := i, tenant_id := "local", workspace_id := "default"
    kind := "note", text := t }

theorem foldl_maxScore_bounds (xs : List MWS) (a : ℚ) :
    a ≤ xs.foldl (fun a r => if r.score > a then r.score else a) a ∧
    ∀ r ∈ xs, r.score ≤ xs.foldl (fun a r => if r.score > a then r.score else a) a := by
  induction xs generalizing a with
  | nil => simp
  | cons x t ih =>
    have hstep : a ≤ (if x.score > a then x.score else a) ∧
        x.score ≤ (if x.score > a then x.score else a) := by
      by_cases hxa : x.score > a
      · rw [if_pos hxa]; exact ⟨le_of_lt hxa, le_refl _⟩
      · rw [if_neg hxa]; exact ⟨le_refl _, le_of_not_lt hxa⟩
    rcases ih (if x.score > a then x.score else a) with ⟨h1, h2⟩
    refine ⟨le_trans hstep.1 h1, ?_⟩
    intro r hr
    rcases List.mem_cons.mp hr with rfl | hr
    · exact le_trans hstep.2 h1
    · exact h2 r hr

theorem normalizeScores_bounds (l : List MWS)
    (h : ∀ r ∈ l, 0 ≤ r.score ∧ r.score ≤ 1) :
    ∀ r ∈ normalizeScores l, 0 ≤ r.score ∧ r.score ≤ 1 := by
  match l with
  | [] => simp [normalizeScores]
  | x :: xs =>
    rw [normalizeScores]
    set maxS := xs.foldl (fun a r => if r.score > a then r.score else a) x.score with hms
    by_cases hm : maxS ≤ 0
    · rw [if_pos hm]; exact h
    · rw [if_neg hm]
      have hpos : 0 < maxS := lt_of_not_le hm
      intro r hr
      rcases List.mem_map.mp hr with ⟨r0, hr0, rfl⟩
      have hb := foldl_maxScore_bounds xs x.score
      have hle : r0.score ≤ maxS := by
        rcases List.mem_cons.mp hr0 with rfl | hr0
        · exact hb.1
        · exact hb.2 r0 hr0
      have h0 : 0 ≤ r0.score := (h r0 hr0).1
      constructor
      · exact div_nonneg h0 (le_of_lt hpos)
      · exact (div_le_one hpos).mpr hle

theorem findRow_mem (id : Int) (l : List MWS) (r : MWS)
    (h : findRow id l = some r) : r ∈ l := by
  induction l with
  | nil => simp [findRow] at h
  | cons x xs ih =>
    rw [findRow] at h
    split at h
    · simp only [Option.some.injEq] at h
      subst h
      exact List.mem_cons_self _ _
    · exact List.mem_cons_of_mem x (ih h)

theorem lookupScore_bounds (l : List MWS)
    (h : ∀ r ∈ l, 0 ≤ r.score ∧ r.score ≤ 1) (id : Int) :
    0 ≤ lookupScore l id ∧ lookupScore l id ≤ 1 := by
  unfold lookupScore
  cases hf : findRow id l.reverse with
  | none => norm_num
  | some r =>
    have hr : r ∈ l := List.mem_reverse.mp (findRow_mem id l.reverse r hf)
    exact h r hr

theorem fuse_bounds (a b alpha : ℚ) (ha0 : 0 ≤ a) (ha1 : a ≤ 1)
    (hb0 : 0 ≤ b) (hb1 : b ≤ 1) (hl0 : 0 ≤ alpha) (hl1 : alpha ≤ 1) :
    0 ≤ alpha * a + (1 - alpha) * b ∧ alpha * a + (1 - alpha) * b ≤ 1 := by
  constructor <;> nlinarith

theorem mergedVal_bounds (vecN lexN : List MWS) (alpha : ℚ) (id : Int)
    (hv : ∀ r ∈ vecN, 0 ≤ r.score ∧ r.score ≤ 1)
    (hl : ∀ r ∈ lexN, 0 ≤ r.score ∧ r.score ≤ 1)
    (hl0 : 0 ≤ alpha) (hl1 : alpha ≤ 1) :
    ∀ fr, mergedVal vecN lexN alpha id = some fr →
      0 ≤ fr.score ∧ fr.score ≤ 1 := by
  intro fr hfr
  unfold mergedVal at hfr
  cases hf : findRow id vecN.reverse with
  | some r =>
    rw [hf] at hfr
    cases hfr
    have hr : r ∈ vecN := List.mem_reverse.mp (findRow_mem id vecN.reverse r hf)
    have hlk := lookupScore_bounds lexN hl id
    exact fuse_bounds r.score _ alpha (hv r hr).1 (hv r hr).2 hlk.1 hlk.2 hl0 hl1
  | none =>
    rw [hf] at hfr
    cases hg : findRow id lexN with
    | some r =>
      rw [hg] at hfr
      cases hfr
      have hr : r ∈ lexN := findRow_mem id lexN r hg
      have hlk := lookupScore_bounds vecN hv id
      exact fuse_bounds _ r.score alpha hlk.1 hlk.2 (hl r hr).1 (hl r hr).2 hl0 hl1
    | none => rw [hg] at hfr; cases hfr

theorem mem_goSortSlice (less : α → α → Bool) (l : List α) (z : α) :
    z ∈ goSortSlice less l ↔ z ∈ l := by
  have key : ∀ acc : List α,
      (z ∈ l.foldl (fun acc x => insertLe less x acc) acc ↔ z ∈ acc ∨ z ∈ l) := by
    induction l with
    | nil => intro acc; simp
    | cons x xs ih =>
      intro acc
      rw [List.foldl_cons, ih, mem_insertLe]
      simp only [List.mem_cons]
      tauto
  rw [goSortSlice, key []]
  simp

theorem pairwise_goSortSlice (less : α → α → Bool) (R : α → α → Prop)
    (hle : ∀ a b, less a b = true → R a b)
    (hnle : ∀ a b, less a b = false → R b a)
    (htrans : Transitive R) (l : List α) :
    (goSortSlice less l).Pairwise R := by
  have key : ∀ acc : List α, acc.Pairwise R →
      (l.foldl (fun acc x => insertLe less x acc) acc).Pairwise R := by
    induction l with
    | nil => intro acc h; exact h
    | cons x xs ih =>
      intro acc hacc
      exact ih _ (pairwise_insertLe less R hle hnle htrans x acc hacc)
  exact key [] List.Pairwise.nil

theorem mem_truncateResults (l : List SearchResult) (limit : Int)
    (r : SearchResult) (h : r ∈ truncateResults l limit) : r ∈ l := by
  unfold truncateResults at h
  split at h
  · exact h
  · exact (List.take_sublist _ _).subset h

theorem truncateResults_length (l : List SearchResult) (limit : Int)
    (h : 0 ≤ limit) : ((truncateResults l limit).length : Int) ≤ limit := by
  unfold truncateResults
  split
  · omega
  · rw [List.length_take]
    omega

theorem truncateResults_pairwise {R : SearchResult → SearchResult → Prop}
    (l : List SearchResult) (limit : Int) (h : l.Pairwise R) :
    (truncateResults l limit).Pairwise R := by
  unfold truncateResults
  split
  · exact h
  · exact h.sublist (List.take_sublist _ _)

/-- C2 (amended): provided every score the store hands the fuser lies in
[0, 1] — trigram scores always do, but vector scores `1 − cosine_distance`
can be negative — and the effective `alpha` lies in [0, 1], every score
`hybridSearch` returns lies in [0, 1], in the fusion path as well as in
both degenerate single-set paths and the skipped-normalization case. -/
theorem hybridSearch_scores_in_unit (vectorResults lexicalResults : List MWS)
    (limit : Int) (alpha : ℚ) (order : List Int)
    (hv : ∀ r ∈ vectorResults, 0 ≤ r.score ∧ r.score ≤ 1)
    (hl : ∀ r ∈ lexicalResults, 0 ≤ r.score ∧ r.score ≤ 1)
    (hl0 : 0 ≤ alpha) (hl1 : alpha ≤ 1) :
    ∀ r ∈ hybridSearch vectorResults lexicalResults limit alpha order,
      0 ≤ r.score ∧ r.score ≤ 1 := by
  intro r hr
  unfold hybridSearch at hr
  split at hr
  · simp at hr
  · split at hr
    · have hr2 := mem_truncateResults _ _ _ hr
      rcases List.mem_map.mp hr2 with ⟨m, hm, rfl⟩
      exact hl m hm
    · split at hr
      · have hr2 := mem_truncateResults _ _ _ hr
        rcases List.mem_map.mp hr2 with ⟨m, hm, rfl⟩
        exact hv m hm
      · have hr2 := mem_truncateResults _ _ _ hr
        rw [mem_goSortSlice] at hr2
        rcases List.mem_map.mp hr2 with ⟨fr, hfr, rfl⟩
        rcases List.mem_filterMap.mp hfr with ⟨i, _, hsome⟩
        exact mergedVal_bounds _ _ alpha i
          (normalizeScores_bounds _ hv) (normalizeScores_bounds _ hl)
          hl0 hl1 fr hsome

/-- Witness for C2 (amended) at a concrete input. -/
theorem hybridSearch_scores_in_unit_witness :
    (∀ r ∈ [MWS.mk (exM 1 "a") (1/2)], 0 ≤ r.score ∧ r.score ≤ 1) ∧
    (∀ r ∈ [MWS.mk (exM 2 "b") (1/3)], 0 ≤ r.score ∧ r.score ≤ 1) ∧
    (0 : ℚ) ≤ 7/10 ∧ (7/10 : ℚ) ≤ 1 ∧
    ∀ r ∈ hybridSearch [MWS.mk (exM 1 "a") (1/2)] [MWS.mk (exM 2 "b") (1/3)]
        10 (7/10) [1, 2], 0 ≤ r.score ∧ r.score ≤ 1 := by
  refine ⟨?_, ?_, by norm_num, by norm_num, ?_⟩
  · intro r hr; rcases List.mem_singleton.mp hr with rfl; norm_num
  · intro r hr; rcases List.mem_singleton.mp hr with rfl; norm_num
  · exact hybridSearch_scores_in_unit _ _ 10 (7/10) [1, 2]
      (by intro r hr; rcases List.mem_singleton.mp hr with rfl; norm_num)
      (by intro r hr; rcases List.mem_singleton.mp hr with rfl; norm_num)
      (by norm_num) (by norm_num)

/-- C2 (counterexample): with the lexical set empty, `hybridSearch`
returns the vector set untouched, and a vector score of `-1/2` — which
`VectorSearch` produces whenever the cosine distance is `3/2` — is
returned as-is, outside [0, 1]. -/
theorem hybridSearch_score_negative :
    (hybridSearch [MWS.mk (exM 1 "a") (-(1/2))] [] 10 (7/10) []).map
      (fun r => r.score) = [-(1/2)] ∧ ¬(0 ≤ (-(1/2) : ℚ)) := by
  constructor
  · rfl
  · norm_num

/-- C3 (amended): in the fusion path (both result sets non-empty) the
returned list is sorted by fused score in non-increasing order and is
truncated to `limit`; the order of results with equal fused scores is
whatever the map iteration produced, not necessarily ascending memory
id.  The length bound holds on every path. -/
theorem hybridSearch_sorted_desc (vectorResults lexicalResults : List MWS)
    (limit : Int) (alpha : ℚ) (order : List Int) (hlim : 0 < limit) :
    ((hybridSearch vectorResults lexicalResults limit alpha order).length : Int)
      ≤ limit ∧
    (vectorResults ≠ [] → lexicalResults ≠ [] →
      (hybridSearch vectorResults lexicalResults limit alpha order).Pairwise
        (fun a b => b.score ≤ a.score)) := by
  constructor
  · unfold hybridSearch
    split
    · simpa using le_of_lt hlim
    · split
      · exact truncateResults_length _ _ (le_of_lt hlim)
      · split
        · exact truncateResults_length _ _ (le_of_lt hlim)
        · exact truncateResults_length _ _ (le_of_lt hlim)
  · intro hvne hlne
    unfold hybridSearch
    rw [if_neg (by simp [hvne]), if_neg (by simp [hvne]), if_neg (by simp [hlne])]
    apply truncateResults_pairwise
    apply pairwise_goSortSlice
    · intro a b hab
      exact le_of_lt (of_decide_eq_true hab)
    · intro a b hab
      exact le_of_not_lt (of_decide_eq_false hab)
    · intro a b c h1 h2
      exact le_trans h2 h1

/-- Witness for C3 (amended) at a concrete input. -/
theorem hybridSearch_sorted_desc_witness :
    (0 : Int) < 10 ∧
    (((hybridSearch [MWS.mk (exM 1 "a") 1] [MWS.mk (exM 1 "a") 1]
        10 (7/10) [1]).length : Int) ≤ 10 ∧
    ([MWS.mk (exM 1 "a") 1] ≠ ([] : List MWS) →
      [MWS.mk (exM 1 "a") 1] ≠ ([] : List MWS) →
      (hybridSearch [MWS.mk (exM 1 "a") 1] [MWS.mk (exM 1 "a") 1]
        10 (7/10) [1]).Pairwise (fun a b => b.score ≤ a.score))) :=
  ⟨by norm_num,
   hybridSearch_sorted_desc [MWS.mk (exM 1 "a") 1] [MWS.mk (exM 1 "a") 1]
     10 (7/10) [1] (by norm_num)⟩

/-- C3 (counterexample): two results tie at fused score 1; when the Go
map happens to be iterated as `[2, 1]` — an admissible execution —
`sort.Slice`'s insertion sort performs no swap, and the tie comes back
with memory id 2 before memory id 1, not ascending. -/
theorem hybridSearch_tie_not_id_ascending :
    (hybridSearch [MWS.mk (exM 1 "a") 1, MWS.mk (exM 2 "b") 1]
        [MWS.mk (exM 1 "a") 1, MWS.mk (exM 2 "b") 1] 10 (7/10) [2, 1]).map
      (fun r => (r.id, r.score)) = [(2, 1), (1, 1)] ∧ ¬((2 : Int) ≤ 1) := by
  constructor
  · norm_num [hybridSearch, normalizeScores, mergedVal, lookupScore, goSortSlice,
      insertLe, truncateResults, memoriesToResults, exM, findRow, List.filterMap]
  · norm_num

/-! ## VectorSearch (package `db`)

The pgvector operator `<=>` is an opaque distance parameter `dist`;
`cosDistUnit` below instantiates it exactly for unit-length vectors.
The SQL is translated operationally: the join is a cross product plus
the `ON`/`WHERE` filter, `ORDER BY` is `sortLe`, `DISTINCT ON (m.id)` is
`distinctOn`, `LIMIT` is `goTake`. -/

/-- Dot product. -/
def dotQ : List ℚ → List ℚ → ℚ
  | a :: as, b :: bs => a * b + dotQ as bs
  | _, _ => 0

/-- Cosine distance `1 - cos` restricted to unit-length vectors, where it
equals `1 - dot` exactly (embedding providers return normalized
vectors). -/
def cosDistUnit (a b : List ℚ) : ℚ := 1 - dotQ a b

/-- The comparison of `ORDER BY e.embedding <=> $1`. -/
def distLe (dist : List ℚ → List ℚ → ℚ) (q : List ℚ)
    (p p' : MemRow × EmbRow) : Bool :=
  decide (dist q p.2.embedding ≤ dist q p'.2.embedding)

/-- The comparison of `ORDER BY m.id, e.embedding <=> $1`. -/
def vecLexLe (dist : List ℚ → List ℚ → ℚ) (q : List ℚ)
    (p p' : MemRow × EmbRow) : Bool :=
  decide (p.1.id < p'.1.id) ||
    (decide (p.1.id = p'.1.id) &&
      decide (dist q p.2.embedding ≤ dist q p'.2.embedding))

/-- `db.VectorSearch`.  A non-positive limit becomes 10.  With a model
filter, the partition's rows of that model are ordered by ascending
distance; with the filter empty, `SELECT DISTINCT ON (m.id) ...
ORDER BY m.id, e.embedding <=> $1 LIMIT ..` keeps each memory's
closest embedding but orders and limits by memory id. -/
def VectorSearch (cfg : DBConfig) (dist : List ℚ → List ℚ → ℚ)
    (q : List ℚ) (model : String) (limit0 : Int) (st : DBState) :
    List MWS :=
  let limit := if limit0 ≤ 0 then 10 else limit0
  if model ≠ "" then
    let rows := (st.memories.product st.embeddings).filter
      (fun p => p.1.id == p.2.memory_id && inPartition cfg p.1 &&
        p.2.model == model)
    goTake limit ((sortLe (distLe dist q) rows).map
      (fun p => ⟨p.1, 1 - dist q p.2.embedding⟩))
  else
    let rows := (st.memories.product st.embeddings).filter
      (fun p => p.1.id == p.2.memory_id && inPartition cfg p.1)
    goTake limit
      ((distinctOn (fun p => p.1.id) (sortLe (vecLexLe dist q) rows)).map
        (fun p => ⟨p.1, 1 - dist q p.2.embedding⟩))

/-- C1 (counterexample): with an empty model filter, memory 1 sits at
cosine distance 1 from the query and memory 2 at distance 0, yet the
result comes back ordered `[memory 1, memory 2]` — by id, not by
ascending distance — and with `LIMIT 1` the closest memory is dropped
entirely. -/
theorem VectorSearch_no_filter_not_distance_ordered :
    (VectorSearch ⟨"local", "default"⟩ cosDistUnit [1, 0] "" 2
      { memories := [exM 1 "a", exM 2 "b"]
        embeddings := [⟨1, "m1", 2, [0, 1]⟩, ⟨2, "m1", 2, [1, 0]⟩]
        nextId := 3 }).map (fun r => (r.mem.id, r.score)) =
      [(1, 0), (2, 1)] ∧
    (VectorSearch ⟨"local", "default"⟩ cosDistUnit [1, 0] "" 1
      { memories := [exM 1 "a", exM 2 "b"]
        embeddings := [⟨1, "m1", 2, [0, 1]⟩, ⟨2, "m1", 2, [1, 0]⟩]
        nextId := 3 }).map (fun r => (r.mem.id, r.score)) = [(1, 0)] ∧
    ¬((1 : ℚ) ≤ 0) := by
  refine ⟨?_, ?_, by norm_num⟩ <;>
    norm_num [VectorSearch, List.product, sortLe, insertLe, distinctOn,
      goTake, cosDistUnit, dotQ, vecLexLe, inPartition, exM, List.filter]

/-- C1 (amended): with a non-empty model filter, `VectorSearch` returns
partition rows of that model ordered by ascending cosine distance
(equivalently non-increasing score) with `score = 1 − cosine_distance`
of the row's embedding.  With the filter empty, it returns one row per
memory — the memory's best-matching (minimum-distance) embedding across
all models, scored `1 − that distance` — but ordered by memory id
ascending, with the limit likewise applied in id order, not by
distance. -/
theorem VectorSearch_order_and_scores (cfg : DBConfig)
    (dist : List ℚ → List ℚ → ℚ) (q : List ℚ) (model : String)
    (limit : Int) (st : DBState) :
    (model ≠ "" →
      (VectorSearch cfg dist q model limit st).Pairwise
        (fun a b => b.score ≤ a.score) ∧
      ∀ r ∈ VectorSearch cfg dist q model limit st,
        inPartition cfg r.mem = true ∧ r.mem ∈ st.memories ∧
        ∃ e ∈ st.embeddings, e.memory_id = r.mem.id ∧ e.model = model ∧
          r.score = 1 - dist q e.embedding) ∧
    (model = "" →
      (VectorSearch cfg dist q model limit st).Pairwise
        (fun a b => a.mem.id < b.mem.id) ∧
      ∀ r ∈ VectorSearch cfg dist q model limit st,
        inPartition cfg r.mem = true ∧ r.mem ∈ st.memories ∧
        ∃ e ∈ st.embeddings, e.memory_id = r.mem.id ∧
          r.score = 1 - dist q e.embedding ∧
          ∀ e' ∈ st.embeddings, e'.memory_id = r.mem.id →
            dist q e.embedding ≤ dist q e'.embedding) := by
  constructor
  · intro hm
    rw [VectorSearch, if_pos hm]
    have hs : (sortLe (distLe dist q)
        ((st.memories.product st.embeddings).filter
          (fun p => p.1.id == p.2.memory_id && inPartition cfg p.1 &&
            p.2.model == model))).Pairwise
        (fun p p' => dist q p.2.embedding ≤ dist q p'.2.embedding) := by
      apply pairwise_sortLe
      · intro a b hab
        exact of_decide_eq_true hab
      · intro a b hab
        exact le_of_not_le (of_decide_eq_false hab)
      · intro a b c h1 h2
        exact le_trans h1 h2
    constructor
    · apply List.Pairwise.sublist (List.take_sublist _ _)
      rw [List.pairwise_map]
      exact hs.imp (fun hab => by dsimp only; linarith)
    · intro r hr
      have hr2 := (List.take_sublist _ _).subset hr
      rcases List.mem_map.mp hr2 with ⟨p, hp, rfl⟩
      have hprows := (perm_sortLe (distLe dist q) _).subset hp
      rcases List.mem_filter.mp hprows with ⟨hpp, hcond⟩
      obtain ⟨m, e⟩ := p
      have hmem := (List.pair_mem_product).mp hpp
      simp only [Bool.and_eq_true, beq_iff_eq] at hcond
      exact ⟨hcond.1.2, hmem.1, e, hmem.2, hcond.1.1.symm, hcond.2, rfl⟩
  · intro hm
    subst hm
    rw [VectorSearch, if_neg (by simp)]
    have hs : (sortLe (vecLexLe dist q)
        ((st.memories.product st.embeddings).filter
          (fun p => p.1.id == p.2.memory_id && inPartition cfg p.1))).Pairwise
        (fun p p' : MemRow × EmbRow => p.1.id < p'.1.id ∨
          (p.1.id = p'.1.id ∧
            dist q p.2.embedding ≤ dist q p'.2.embedding)) := by
      apply pairwise_sortLe
      · intro a b hab
        simpa [vecLexLe, decide_eq_true_eq] using hab
      · intro a b hab
        simp only [vecLexLe, Bool.or_eq_false_iff, Bool.and_eq_false_iff,
          decide_eq_false_iff_not] at hab
        rcases lt_trichotomy a.1.id b.1.id with h | h | h
        · exact absurd h hab.1
        · rcases hab.2 with h2 | h2
          · exact absurd h h2
          · exact Or.inr ⟨h.symm, le_of_not_le h2⟩
        · exact Or.inl h
      · intro a b c h1 h2
        rcases h1 with h1 | ⟨h1, h1d⟩ <;> rcases h2 with h2 | ⟨h2, h2d⟩
        · exact Or.inl (by omega)
        · exact Or.inl (by omega)
        · exact Or.inl (by omega)
        · exact Or.inr ⟨by omega, le_trans h1d h2d⟩
    have hdk := distinctOn_keys (fun p : MemRow × EmbRow => p.1.id)
      (sortLe (vecLexLe dist q)
        ((st.memories.product st.embeddings).filter
          (fun p => p.1.id == p.2.memory_id && inPartition cfg p.1)))
    have hdp := distinctOn_pairwise (fun p : MemRow × EmbRow => p.1.id) _ hs
    constructor
    · apply List.Pairwise.sublist (List.take_sublist _ _)
      rw [List.pairwise_map]
      apply (hdp.and hdk).imp
      intro a b hab
      dsimp only
      rcases hab.1 with h | ⟨h, _⟩
      · exact h
      · exact absurd h hab.2
    · intro r hr
      have hr2 := (List.take_sublist _ _).subset hr
      rcases List.mem_map.mp hr2 with ⟨p, hp, rfl⟩
      have hpsorted := (distinctOn_sublist _ _).subset hp
      have hprows := (perm_sortLe (vecLexLe dist q) _).subset hpsorted
      rcases List.mem_filter.mp hprows with ⟨hpp, hcond⟩
      have hmem : p.1 ∈ st.memories ∧ p.2 ∈ st.embeddings := by
        obtain ⟨m, e⟩ := p
        exact (List.pair_mem_product).mp hpp
      simp only [Bool.and_eq_true, beq_iff_eq] at hcond
      refine ⟨hcond.2, hmem.1, p.2, hmem.2, hcond.1.symm, rfl, ?_⟩
      intro e' he' hide'
      have hmin := distinctOn_min (fun p : MemRow × EmbRow => p.1.id)
        (fun p => dist q p.2.embedding) _ hs p hp (p.1, e') ?_ ?_
      · exact hmin
      · rw [(perm_sortLe (vecLexLe dist q) _).mem_iff]
        apply List.mem_filter.mpr
        refine ⟨(List.pair_mem_product).mpr ⟨hmem.1, he'⟩, ?_⟩
        simp only [Bool.and_eq_true, beq_iff_eq]
        exact ⟨by simpa using hide'.symm, hcond.2⟩
      · rfl

/-- Witness for C1 (amended) at a concrete state, for both the
filtered and the unfiltered branch. -/
theorem VectorSearch_order_and_scores_witness :
    (VectorSearch ⟨"local", "default"⟩ cosDistUnit [1, 0] "m1" 10
      { memories := [exM 1 "a", exM 2 "b"]
        embeddings := [⟨1, "m1", 2, [0, 1]⟩, ⟨2, "m1", 2, [1, 0]⟩]
        nextId := 3 }).Pairwise (fun a b => b.score ≤ a.score) ∧
    (VectorSearch ⟨"local", "default"⟩ cosDistUnit [1, 0] "" 10
      { memories := [exM 1 "a", exM 2 "b"]
        embeddings := [⟨1, "m1", 2, [0, 1]⟩, ⟨2, "m1", 2, [1, 0]⟩]
        nextId := 3 }).Pairwise (fun a b => a.mem.id < b.mem.id) :=
  ⟨((VectorSearch_order_and_scores ⟨"local", "default"⟩ cosDistUnit [1, 0]
      "m1" 10
      { memories := [exM 1 "a", exM 2 "b"]
        embeddings := [⟨1, "m1", 2, [0, 1]⟩, ⟨2, "m1", 2, [1, 0]⟩]
        nextId := 3 }).1 (by decide)).1,
   ((VectorSearch_order_and_scores ⟨"local", "default"⟩ cosDistUnit [1, 0]
      "" 10
      { memories := [exM 1 "a", exM 2 "b"]
        embeddings := [⟨1, "m1", 2, [0, 1]⟩, ⟨2, "m1", 2, [1, 0]⟩]
        nextId := 3 }).2 rfl).1⟩

/-! ## GetRelatedMemories (internal/db/entity.go) -/

/-- `COUNT(DISTINCT ..)` over a column. -/
def countDistinct (l : List Int) : Nat :=
  (distinctOn (fun x : Int => x) l).length

/-- The joined rows for one group `m` of the `related` query:
`memory_entities me2` joined with `memory_entities me1` on
`me1.entity_id = me2.entity_id AND me1.memory_id = $1`, with
`m.id = me2.memory_id`; the pair is `(me2, me1)`. -/
def relatedJoinRows (st : DBState) (srcId : Int) (m : MemRow) :
    List (MELink × MELink) :=
  (st.memory_entities.product st.memory_entities).filter
    (fun p => p.1.memory_id == m.id && p.2.entity_id == p.1.entity_id &&
      p.2.memory_id == srcId)

/-- The `related` score as the SQL computes it:
`COUNT(DISTINCT me2.entity_id) / GREATEST(COUNT(DISTINCT me1.entity_id), 1)`
over the group's joined rows. -/
def relatedScore (st : DBState) (srcId : Int) (m : MemRow) : ℚ :=
  let rows := relatedJoinRows st srcId m
  (countDistinct (rows.map (fun p => p.1.entity_id)) : ℚ) /
    max (countDistinct (rows.map (fun p => p.2.entity_id)) : ℚ) 1

/-- `db.GetRelatedMemories`: partition rows other than the source that
share at least one entity with it (`GROUP BY m.id` keeps the groups the
join populates), scored as above, `ORDER BY m.id, score DESC`,
`DISTINCT ON (m.id)`, `LIMIT`. -/
def GetRelatedMemories (cfg : DBConfig) (st : DBState) (memoryID : Int)
    (limit0 : Int) : List MWS :=
  let limit := if limit0 ≤ 0 then 10 else limit0
  let grouped := st.memories.filter
    (fun m => m.id != memoryID && inPartition cfg m &&
      !(relatedJoinRows st memoryID m).isEmpty)
  goTake limit
    ((distinctOn (fun m : MemRow => m.id)
        (sortLe (fun m m' : MemRow => decide (m.id ≤ m'.id)) grouped)).map
      (fun m => ⟨m, relatedScore st memoryID m⟩))

/-- The `related` score as the spec words it:
`shared / max(src_entity_count, 1)`, where `shared` counts the entities
linked to both memories and `src_entity_count` counts all entities
linked to the source memory. -/
def specRelatedScore (st : DBState) (srcId mId : Int) : ℚ :=
  let shared := countDistinct ((st.memory_entities.filter
    (fun l => l.memory_id == mId && st.memory_entities.any
      (fun l' => l'.memory_id == srcId && l'.entity_id == l.entity_id))).map
    (fun l => l.entity_id))
  let srcCount := countDistinct ((st.memory_entities.filter
    (fun l => l.memory_id == srcId)).map (fun l => l.entity_id))
  (shared : ℚ) / max (srcCount : ℚ) 1

/-- C9 (divergence evaluation): the source memory 10 is linked to
entities 1 and 2, memory 20 only to entity 1, so the spec's formula
gives `shared / max(src_entity_count, 1) = 1/2`; but in the SQL both
`COUNT(DISTINCT ..)` expressions range over the join restricted to the
shared entities, so the code returns score 1 — as it does for every
related memory. -/
theorem GetRelatedMemories_score_always_one :
    (GetRelatedMemories ⟨"local", "default"⟩
      { memories := [exM 10 "src", exM 20 "other"]
        embeddings := []
        memory_entities := [⟨10, 1⟩, ⟨10, 2⟩, ⟨20, 1⟩]
        nextId := 21 } 10 5).map (fun r => (r.mem.id, r.score)) = [(20, 1)] ∧
    specRelatedScore
      { memories := [exM 10 "src", exM 20 "other"]
        embeddings := []
        memory_entities := [⟨10, 1⟩, ⟨10, 2⟩, ⟨20, 1⟩]
        nextId := 21 } 10 20 = 1/2 ∧
    ((1 : ℚ) ≠ 1/2) := by
  refine ⟨?_, ?_, by norm_num⟩ <;>
    norm_num [GetRelatedMemories, relatedScore, relatedJoinRows,
      specRelatedScore, countDistinct, distinctOn, sortLe, insertLe, goTake,
      List.product, inPartition, exM]

/-! ## Transfer import (internal/transfer/import.go)

PostgreSQL resolves an `ON CONFLICT (cols)` clause by inferring a unique
index whose columns are exactly `cols`; when none matches it rejects the
statement (42P10) regardless of the data.  The schema after migration
003 gives `memory_embeddings` the single unique index
`(memory_id, model)`, and `memories` keeps its primary key `(id)`. -/

/-- `transfer.MemoryRecord.embedding`. -/
structure EmbeddingRecord where
  model : String
  dims : Int
  vector : List ℚ
deriving Repr, DecidableEq

/-- `transfer.MemoryRecord` (one parsed JSONL line). -/
structure MemoryRecord where
  id : Int
  tenant_id : String
  workspace_id : String
  kind : String
  text : String
  source : Option String := none
  created_at : Int := 0
  updated_at : Int := 0
  tags : Option (List String) := none
  importance : ℚ := 0
  ttl_days : Option Int := none
  meta : List (String × String) := []
  embedding : Option EmbeddingRecord := none
deriving Repr, DecidableEq

/-- `transfer.ImportOptions`. -/
structure ImportOptions where
  skipExisting : Bool := false
  regenerateEmbeddings : Bool := false
  overrideTenantID : String := ""
  overrideWorkspaceID : String := ""
  dryRun : Bool := false
deriving Repr, DecidableEq

/-- `transfer.ImportResult`. -/
structure ImportResult where
  total : Int := 0
  imported : Int := 0
  skipped : Int := 0
  errors : Int := 0
deriving Repr, DecidableEq

/-- PostgreSQL's arbiter-index inference for `ON CONFLICT (target)`. -/
def arbiterMatches (target : List String) (uniques : List (List String)) :
    Bool :=
  uniques.any (fun u =>
    u.length == target.length && target.all (fun c => u.contains c))

/-- Unique indexes of `memory_embeddings` after migration 003. -/
def embeddingsUniqueIndexes : List (List String) := [["memory_id", "model"]]

/-- `transfer.upsertEmbedding`: `INSERT INTO memory_embeddings ... ON
CONFLICT (memory_id) DO UPDATE ...`, storing `dims = len(vector)` with
no check against the record's stated dims.  Against the migrated schema
the `(memory_id)` arbiter matches no unique index, so the statement
always errors. -/
def transferUpsertEmbedding (st : DBState) (memoryID : Int) (model : String)
    (vector : List ℚ) : Except Unit DBState :=
  if arbiterMatches ["memory_id"] embeddingsUniqueIndexes then
    .ok (if st.embeddings.any (fun e => e.memory_id == memoryID) then
      { st with embeddings := st.embeddings.map (fun e =>
          if e.memory_id == memoryID then
            ⟨memoryID, model, vector.length, vector⟩
          else e) }
    else
      { st with embeddings :=
          st.embeddings ++ [⟨memoryID, model, vector.length, vector⟩] })
  else .error ()

/-- The memory upsert inside `importRecord`: `INSERT ... ON CONFLICT
(id) DO UPDATE SET workspace_id, kind, text, source, updated_at, tags,
importance, ttl_days, meta` — note `tenant_id` and `created_at` are not
in the update list. -/
def importUpsertMemory (r1 : MemoryRecord) (st : DBState) : DBState :=
  if st.memories.any (fun m => m.id == r1.id) then
    { st with memories := st.memories.map (fun m =>
        if m.id == r1.id then
          { m with workspace_id := r1.workspace_id, kind := r1.kind
                   text := r1.text, source := r1.source
                   updated_at := r1.updated_at, tags := r1.tags.getD []
                   importance := r1.importance, ttl_days := r1.ttl_days
                   meta := r1.meta }
        else m) }
  else
    { st with memories := st.memories ++
        [{ id := r1.id, tenant_id := r1.tenant_id
           workspace_id := r1.workspace_id, kind := r1.kind, text := r1.text
           source := r1.source, created_at := r1.created_at
           updated_at := r1.updated_at, tags := r1.tags.getD []
           importance := r1.importance, ttl_days := r1.ttl_days
           meta := r1.meta }] }

/-- `transfer.importRecord`: one transaction upserting the memory and
then its embedding (the record's own when present and
`regenerateEmbeddings` is off, a freshly generated one when
regenerating with an embedder); any error rolls the whole record back.
The embedder is `(model, text → vector)` when configured. -/
def importRecord (r1 : MemoryRecord) (opts : ImportOptions)
    (embedder : Option (String × (String → List ℚ))) (st : DBState) :
    Except Unit DBState :=
  let st1 := importUpsertMemory r1 st
  if opts.regenerateEmbeddings then
    match embedder with
    | some (model, f) => transferUpsertEmbedding st1 r1.id model (f r1.text)
    | none => .ok st1
  else
    match r1.embedding with
    | some er => transferUpsertEmbedding st1 r1.id er.model er.vector
    | none => .ok st1

/-- The record rewriting `Import` performs before any write: tenant and
workspace overrides when configured, then the `"default"` workspace
fallback. -/
def applyOverrides (opts : ImportOptions) (r0 : MemoryRecord) :
    MemoryRecord :=
  let r1 := if opts.overrideTenantID ≠ ""
    then { r0 with tenant_id := opts.overrideTenantID } else r0
  let r2 := if opts.overrideWorkspaceID ≠ ""
    then { r1 with workspace_id := opts.overrideWorkspaceID } else r1
  if r2.workspace_id = "" then { r2 with workspace_id := "default" } else r2

/-- `transfer.memoryExists` (used by skip-existing). -/
def memoryExists (st : DBState) (id : Int) (tenant ws : String) : Bool :=
  st.memories.any (fun m =>
    m.id == id && m.tenant_id == tenant && m.workspace_id == ws)

/-- One loop iteration of `transfer.Import`; a `none` line is a
malformed JSONL line. -/
def importStep (opts : ImportOptions)
    (embedder : Option (String × (String → List ℚ)))
    (acc : ImportResult × DBState) (line : Option MemoryRecord) :
    ImportResult × DBState :=
  let res := { acc.1 with total := acc.1.total + 1 }
  let st := acc.2
  match line with
  | none => ({ res with errors := res.errors + 1 }, st)
  | some r0 =>
    let r1 := applyOverrides opts r0
    if opts.dryRun then ({ res with imported := res.imported + 1 }, st)
    else if opts.skipExisting &&
        memoryExists st r1.id r1.tenant_id r1.workspace_id then
      ({ res with skipped := res.skipped + 1 }, st)
    else
      match importRecord r1 opts embedder st with
      | .error _ => ({ res with errors := res.errors + 1 }, st)
      | .ok st' => ({ res with imported := res.imported + 1 }, st')

/-- `transfer.Import`. -/
def Import (opts : ImportOptions)
    (embedder : Option (String × (String → List ℚ)))
    (lines : List (Option MemoryRecord)) (st : DBState) :
    ImportResult × DBState :=
  lines.foldl (importStep opts embedder) ({}, st)

/-- C6 (divergence evaluation): importing a well-formed record that
carries an embedding, with `regenerateEmbeddings` off, errors and stores
nothing: the embedding upsert's `ON CONFLICT (memory_id)` no longer
matches the unique constraint `(memory_id, model)` of migration 003, so
the transaction rolls back and the record counts as an error — the
stated vector is never stored, and no `len(vector) == dims` assertion
exists anywhere on the path (the upsert would store
`dims = len(vector)`, ignoring the record's stated dims). -/
theorem import_embedded_record_always_errors :
    Import { overrideTenantID := "local", overrideWorkspaceID := "default" }
      none
      [some { id := 1, tenant_id := "t", workspace_id := "w", kind := "note"
              text := "hello"
              embedding := some ⟨"m1", 3, [1, 0, 0]⟩ }]
      {} =
    ({ total := 1, imported := 0, skipped := 0, errors := 1 }, {}) := by
  rfl

/-- C10 (counterexample): a record whose id collides with an existing
row of a *foreign* tenant.  The overrides rewrite the record to the
configured ("local", "default") partition, but `ON CONFLICT (id) DO
UPDATE` does not assign `tenant_id`, so the import overwrites the
foreign row's content (text becomes "new", workspace becomes the
configured one) while the row keeps tenant "other" — a row written
through the public interface that is not in the configured partition. -/
theorem importRecord_collision_keeps_foreign_tenant :
    importRecord
      (applyOverrides
        { overrideTenantID := "local", overrideWorkspaceID := "default" }
        { id := 1, tenant_id := "evil", workspace_id := "evil"
          kind := "note", text := "new" })
      { overrideTenantID := "local", overrideWorkspaceID := "default" }
      none
      { memories := [{ id := 1, tenant_id := "other"
                       workspace_id := "default", kind := "note"
                       text := "old" }]
        nextId := 2 } =
    .ok { memories := [{ id := 1, tenant_id := "other"
                         workspace_id := "default", kind := "note"
                         text := "new", updated_at := 0, tags := []
                         importance := 0 }]
          nextId := 2 } ∧
    ("other" : String) ≠ "local" := by
  exact ⟨rfl, by decide⟩

theorem transferUpsertEmbedding_memories (st : DBState) (memoryID : Int)
    (model : String) (vector : List ℚ) (st' : DBState)
    (h : transferUpsertEmbedding st memoryID model vector = .ok st') :
    st'.memories = st.memories := by
  unfold transferUpsertEmbedding at h
  split at h
  · simp only [Except.ok.injEq] at h
    subst h
    split <;> rfl
  · cases h

/-- C10 (amended): every row `add` inserts carries the configured
tenant and workspace; `update` only rewrites rows of the configured
partition and the rewrite keeps them there; `delete` only removes rows;
and `import` rewrites each record's tenant and workspace to the
configured partition, so a record whose id is fresh inserts a row inside
the configured partition — but when the id collides with an existing
row, the conflict update keeps that row's old `tenant_id`, so the
written row stays in the configured partition only if the colliding row
already was in the configured tenant. -/
theorem partition_confinement (cfg : DBConfig) (now : Int) (st : DBState) :
    (∀ p, ∀ m' ∈ (AddMemory cfg now p st).2.memories,
       m' ∈ st.memories ∨ inPartition cfg m' = true) ∧
    (∀ id p st', UpdateMemory cfg now id p st = .ok st' →
       ∀ m' ∈ st'.memories, m' ∈ st.memories ∨ inPartition cfg m' = true) ∧
    (∀ id st', DeleteMemory cfg id st = .ok st' →
       ∀ m' ∈ st'.memories, m' ∈ st.memories) ∧
    (∀ opts r0 embedder st', opts.overrideTenantID = cfg.tenantID →
       opts.overrideWorkspaceID = cfg.workspaceID →
       cfg.tenantID ≠ "" → cfg.workspaceID ≠ "" →
       (∀ m ∈ st.memories, m.id ≠ (applyOverrides opts r0).id) →
       importRecord (applyOverrides opts r0) opts embedder st = .ok st' →
       ∀ m' ∈ st'.memories, m' ∈ st.memories ∨ inPartition cfg m' = true) := by
  refine ⟨?_, ?_, ?_, ?_⟩
  · intro p m' hm'
    simp only [AddMemory, List.mem_append, List.mem_singleton] at hm'
    rcases hm' with hm' | rfl
    · exact Or.inl hm'
    · exact Or.inr (by simp [inPartition])
  · intro id p st' hok m' hm'
    unfold UpdateMemory at hok
    split at hok
    · simp only [Except.ok.injEq] at hok
      subst hok
      simp only [List.mem_map] at hm'
      rcases hm' with ⟨m, hm, rfl⟩
      split
      · rename_i hcond
        right
        have hkeep : inPartition cfg (applySet now p m) = inPartition cfg m := rfl
        rw [hkeep]
        simp only [Bool.and_eq_true] at hcond
        exact hcond.2
      · exact Or.inl hm
    · cases hok
  · intro id st' hok m' hm'
    unfold DeleteMemory at hok
    split at hok
    · simp only [Except.ok.injEq] at hok
      subst hok
      exact List.mem_of_mem_filter hm'
    · cases hok
  · intro opts r0 embedder st' hot how htne hwne hfresh hok m' hm'
    have h1 : opts.overrideTenantID ≠ "" := by rw [hot]; exact htne
    have h2 : opts.overrideWorkspaceID ≠ "" := by rw [how]; exact hwne
    have hrec : (applyOverrides opts r0).tenant_id = cfg.tenantID ∧
        (applyOverrides opts r0).workspace_id = cfg.workspaceID := by
      simp [applyOverrides, h1, h2, hot, how, htne, hwne]
    have hnoc : ¬ st.memories.any
        (fun m => m.id == (applyOverrides opts r0).id) = true := by
      rw [List.any_eq_true]
      rintro ⟨m, hm, hbeq⟩
      exact hfresh m hm (by simpa using hbeq)
    have hmems : st'.memories =
        (importUpsertMemory (applyOverrides opts r0) st).memories := by
      unfold importRecord at hok
      split at hok
      · split at hok
        · exact transferUpsertEmbedding_memories _ _ _ _ _ hok
        · simp only [Except.ok.injEq] at hok
          subst hok
          rfl
      · split at hok
        · exact transferUpsertEmbedding_memories _ _ _ _ _ hok
        · simp only [Except.ok.injEq] at hok
          subst hok
          rfl
    rw [hmems] at hm'
    unfold importUpsertMemory at hm'
    rw [if_neg hnoc] at hm'
    simp only [List.mem_append, List.mem_singleton] at hm'
    rcases hm' with hm' | rfl
    · exact Or.inl hm'
    · right
      simp [inPartition, hrec.1, hrec.2]

/-- Witness for C10 (amended) at a concrete input: an `add` and an
`import` of a fresh-id record carrying a foreign partition, against the
configured ("local", "default") service. -/
theorem partition_confinement_witness :
    (∀ m' ∈ (AddMemory ⟨"local", "default"⟩ 0
        { kind := "note", text := "t" }
        { memories := [exM 7 "x"], nextId := 8 }).2.memories,
       m' ∈ ({ memories := [exM 7 "x"], nextId := 8 } : DBState).memories ∨
         inPartition ⟨"local", "default"⟩ m' = true) ∧
    (∀ m' ∈ ({ memories := [exM 7 "x",
        { id := 9, tenant_id := "local", workspace_id := "default"
          kind := "note", text := "n", source := none, created_at := 0
          updated_at := 0, tags := [], importance := 0, ttl_days := none
          meta := [] }], nextId := 8 } : DBState).memories,
       m' ∈ ({ memories := [exM 7 "x"], nextId := 8 } : DBState).memories ∨
         inPartition ⟨"local", "default"⟩ m' = true) :=
  ⟨(partition_confinement ⟨"local", "default"⟩ 0
      { memories := [exM 7 "x"], nextId := 8 }).1
      { kind := "note", text := "t" },
   (partition_confinement ⟨"local", "default"⟩ 0
      { memories := [exM 7 "x"], nextId := 8 }).2.2.2
      { overrideTenantID := "local", overrideWorkspaceID := "default" }
      { id := 9, tenant_id := "evil", workspace_id := "evil"
        kind := "note", text := "n" }
      none
      { memories := [exM 7 "x",
          { id := 9, tenant_id := "local", workspace_id := "default"
            kind := "note", text := "n", source := none, created_at := 0
            updated_at := 0, tags := [], importance := 0, ttl_days := none
            meta := [] }], nextId := 8 }
      rfl rfl (by decide) (by decide) (by decide) rfl⟩
